import Mathlib

/-!
Shallow embedding, in Lean 4, of the replicated-partition manager of the
containerfs data node: the leader-aware retrying stream client
(`Send` / `sendToPartition`), the per-partition control loop
(`getMinAppliedId`, the truncation tick, `confRemoveNode` with its
self-removal teardown, `storeApplyIndex`, `LoadApplyIndex`,
`ApplyErrRepair`, the two schedule timers), and the `ExtentKey`
serialization forms. Each definition is translated from the
corresponding Go function; machine integers become `Nat` (with explicit
bounds where overflow could matter), fallible code returns `Option`,
network and filesystem effects become explicit oracles or traces.
-/

/-! ## Leader-aware stream client (stream/StreamConn)

The Go client keeps a cached current address and a host list. Network
effects are modelled by two deterministic oracles: `get addr` tells
whether the connection pool yields a connection to `addr`
(`StreamConnPool.Get`), and `deliver addr` gives the outcome of
`sendToConn` on a connection to `addr` (`none` = success). Each
function additionally returns the list of addresses to which a delivery
(`sendToConn` call) was attempted, in order. -/

/-- Errors of the stream client. `notLeader` is the `NotLeaderError`
sentinel; `other n` stands for any distinct delivery error;
`allHostsFailed` is the aggregate error produced when the host walk in
`sendToPartition` exhausts the list; `retryExhausted` is the aggregate
error `Send` produces after `StreamSendMaxRetry` failed attempts. -/
inductive SErr where
  | notLeader
  | other (code : Nat)
  | allHostsFailed
  | retryExhausted
deriving DecidableEq

/-- The `StreamConn` structure: partition id, cached current address,
known host list. -/
structure SC where
  partition : Nat
  currAddr : String
  hosts : List String
deriving DecidableEq

/-- The `for _, addr := range sc.hosts` loop of `sendToPartition`: skip
hosts whose connection acquisition fails; otherwise set `currAddr` to
the host *before* delivering; stop with success on a nil error, stop
with the error on a non-`NotLeaderError` error, continue on
`NotLeaderError`; falling off the end yields the aggregate failure. -/
def walkHosts (get : String → Bool) (deliver : String → Option SErr) :
    List String → SC → Option SErr × SC × List String
  | [], sc => (some .allHostsFailed, sc, [])
  | addr :: rest, sc =>
    if get addr then
      let sc' := { sc with currAddr := addr }
      match deliver addr with
      | none => (none, sc', [addr])
      | some e =>
        if e = .notLeader then
          let r := walkHosts get deliver rest sc'
          (r.1, r.2.1, addr :: r.2.2)
        else (some e, sc', [addr])
    else walkHosts get deliver rest sc

/-- Model of `StreamConn.sendToPartition`: try the cached address first; on a
successful connection whose delivery fails with an error other than
`NotLeaderError`, return that error at once; on `NotLeaderError`, or
when connection acquisition to the cached address fails, walk the full
host list. -/
def sendToPartition (get : String → Bool) (deliver : String → Option SErr)
    (sc : SC) : Option SErr × SC × List String :=
  if get sc.currAddr then
    match deliver sc.currAddr with
    | none => (none, sc, [sc.currAddr])
    | some e =>
      if e = .notLeader then
        let r := walkHosts get deliver sc.hosts sc
        (r.1, r.2.1, sc.currAddr :: r.2.2)
      else (some e, sc, [sc.currAddr])
  else walkHosts get deliver sc.hosts sc

/-- The constant `StreamSendMaxRetry = 100`. -/
def StreamSendMaxRetry : Nat := 100

/-- The bounded outer retry loop of `StreamConn.Send`, with `fuel`
remaining attempts: each attempt is one `sendToPartition` call; a nil
error returns at once; exhausting the attempts yields the aggregate
retry error. -/
def SendLoop (get : String → Bool) (deliver : String → Option SErr) :
    Nat → SC → Option SErr × SC × List String
  | 0, sc => (some .retryExhausted, sc, [])
  | fuel + 1, sc =>
    let r := sendToPartition get deliver sc
    match r.1 with
    | none => r
    | some _ =>
      let r' := SendLoop get deliver fuel r.2.1
      (r'.1, r'.2.1, r.2.2 ++ r'.2.2)

/-- Model of `StreamConn.Send`: up to `StreamSendMaxRetry` attempts of
`sendToPartition`. -/
def Send (get : String → Bool) (deliver : String → Option SErr)
    (sc : SC) : Option SErr × SC × List String :=
  SendLoop get deliver StreamSendMaxRetry sc

/-! ## Applied-index poll (datanode/partition_raft.go, getMinAppliedId)

The poll walks `replicaHosts[1..]` in order. For each host it gets a
connection, writes the request and reads the reply; the reply carries
that replica's applied index as an 8-byte big-endian value. Each host's
interaction is modelled by a `HostReply`. -/

/-- Outcome of polling one replica host: connection acquisition
failure, write failure, read failure, or a successfully read applied
index. -/
inductive HostReply where
  | connFail
  | writeFail
  | readFail
  | ok (reported : Nat)
deriving DecidableEq

/-- The applied-index values actually reported by the polled replicas
(the successful reads). -/
def reportedIds (rs : List HostReply) : List Nat :=
  rs.filterMap fun r => match r with
    | .ok v => some v
    | _ => none

/-- The `for i := 1; i < len(dp.replicaHosts); i++` loop of
`getMinAppliedId`, with accumulator `acc` (the local variable
`minAppliedId`, initialised to `dp.applyId`). Any connection, write or
read failure aborts the loop with an error (`none`); a reported value
replaces the accumulator only when it is smaller *and nonzero*. -/
def pollLoop : List HostReply → Nat → Option Nat
  | [], acc => some acc
  | r :: rs, acc =>
    match r with
    | .connFail => none
    | .writeFail => none
    | .readFail => none
    | .ok v => pollLoop rs (if v < acc ∧ v ≠ 0 then v else acc)

/-- The per-partition control-loop state the truncation path touches. -/
structure PartState where
  applyId : Nat
  minAppliedId : Nat
  lastTruncateId : Nat
deriving DecidableEq

/-- Model of `getMinAppliedId`. Only the first replica host (the coordinator,
recognised by its IP) performs the poll. The function registers
`defer func(newMinAppliedId uint64){ if err == nil { dp.minAppliedId =
newMinAppliedId } }(minAppliedId)` *before* assigning
`minAppliedId = dp.applyId`; in Go the arguments of a deferred call are
evaluated when the `defer` statement executes, so `newMinAppliedId` is
frozen at the zero value the local `minAppliedId` holds at that point.
On a fully successful poll the stored field therefore becomes that
frozen value (0); on any failure it is left unchanged. -/
def getMinAppliedId (isCoordinator : Bool) (st : PartState)
    (replies : List HostReply) : PartState :=
  if !isCoordinator then st
  else
    let deferArg : Nat := 0
    match pollLoop replies st.applyId with
    | some _ => { st with minAppliedId := deferArg }
    | none => st

/-- One firing of the truncation timer case in `StartSchedule`:
run `getMinAppliedId`, then if `dp.minAppliedId > dp.lastTruncateId`
issue `Truncate(dp.minAppliedId)` (the returned `Option Nat` is the
index passed to the consensus engine) and record it in
`lastTruncateId`. -/
def truncTick (isCoordinator : Bool) (st : PartState)
    (replies : List HostReply) : PartState × Option Nat :=
  let st1 := getMinAppliedId isCoordinator st replies
  if st1.lastTruncateId < st1.minAppliedId then
    ({ st1 with lastTruncateId := st1.minAppliedId }, some st1.minAppliedId)
  else (st1, none)

/-! ## Configuration change: remove peer (confRemoveNode)

Peers are identified by id. `confRemoveNode` returns the `(updated,
err)` pair of the Go function together with the new peer list and the
effect it launches. The self-removal goroutine is modelled by
`selfRemoveRun`: its successive reads of `dp.raftPartition.AppliedIndex()`
are given as a list, and the actions it performs are returned in
order. -/

/-- Error of `confRemoveNode` when the consensus engine is not
attached (`RaftIsNotStart`, tagged with partition id and entry
index). -/
inductive ConfErr where
  | raftNotStarted (partitionId : Nat) (index : Nat)
deriving DecidableEq

/-- Effect launched by `confRemoveNode`: nothing, or the background
self-removal goroutine parameterised by the committed entry's index. -/
inductive RemoveEffect where
  | noEffect
  | spawnSelfRemove (index : Nat)
deriving DecidableEq

/-- Actions of the self-removal teardown, in the order the goroutine
performs them: `raftPartition.Delete()`, `dp.Stop()`,
`os.RemoveAll(dp.Path())`. -/
inductive TDAction where
  | deleteRaft
  | stopPartition
  | removeDir
deriving DecidableEq

/-- Model of `confRemoveNode`: error if consensus is detached; no-op if the
peer id is absent; if the peer is this node, report `updated = false`
immediately and spawn the asynchronous teardown; otherwise excise the
peer synchronously. -/
def confRemoveNode (partitionId : Nat) (nodeId : Nat)
    (raftAttached : Bool) (peers : List Nat) (removeId : Nat)
    (index : Nat) : Bool × Option ConfErr × List Nat × RemoveEffect :=
  if !raftAttached then
    (false, some (.raftNotStarted partitionId index), peers, .noEffect)
  else if removeId ∈ peers then
    if removeId = nodeId then
      (false, none, peers, .spawnSelfRemove index)
    else
      (true, none, peers.erase removeId, .noEffect)
  else (false, none, peers, .noEffect)

/-- The self-removal goroutine: repeatedly sleep and re-read the
consensus engine's applied index (`obs` is the list of successive
reads); while the read is below the removal entry's index, continue;
at the first read that reaches it, delete consensus state (guarded by
the `raftPartition != nil` re-check), stop the partition, and remove
the partition directory. If no read in `obs` reaches the index, no
action is taken within that observation window. -/
def selfRemoveRun (index : Nat) (raftAttached : Bool) :
    List Nat → List TDAction
  | [] => []
  | a :: rest =>
    if a < index then selfRemoveRun index raftAttached rest
    else
      (if raftAttached then [TDAction.deleteRaft] else []) ++
        [TDAction.stopPartition, TDAction.removeDir]

/-! ## Applied-index persistence (storeApplyIndex)

`storeApplyIndex` is modelled as the trace of filesystem operations it
performs, in execution order, together with a naive filesystem
interpreter (contents become visible at write time) used to examine
every crash prefix of the trace. -/

/-- Filesystem operations appearing in the trace of
`storeApplyIndex`. -/
inductive FsOp where
  | openTrunc (f : String)
  | writeAll (f : String) (content : List Char)
  | rename (src : String) (dst : String)
  | syncFile (f : String)
  | closeFile (f : String)
  | removeFile (f : String)
deriving DecidableEq

/-- Name of the canonical applied-index file (its exact value is
configuration; only its distinctness from the temporary name
matters). -/
def ApplyIndexFile : String := "APPLY"

/-- Name of the temporary applied-index file. -/
def TempApplyIndexFile : String := ".apply"

/-- A naive filesystem: an association list from file name to
content. -/
def FsState := List (String × List Char)

/-- Look up a file's content. -/
def fsGet (fs : FsState) (f : String) : Option (List Char) :=
  match fs with
  | [] => none
  | (g, c) :: rest => if g = f then some c else fsGet rest f

/-- Remove a file. -/
def fsRemove (fs : FsState) (f : String) : FsState :=
  match fs with
  | [] => []
  | (g, c) :: rest =>
    if g = f then fsRemove rest f else (g, c) :: fsRemove rest f

/-- Create or overwrite a file. -/
def fsSet (fs : FsState) (f : String) (c : List Char) : FsState :=
  (f, c) :: fsRemove fs f

/-- Interpret one operation against the naive filesystem. `rename`
atomically replaces the destination with the source; `syncFile` and
`closeFile` change nothing (contents are already visible); renaming a
missing source or removing a missing file is a no-op. -/
def runFsOp (fs : FsState) : FsOp → FsState
  | .openTrunc f => fsSet fs f []
  | .writeAll f c => fsSet fs f c
  | .rename src dst =>
    match fsGet fs src with
    | some c => fsSet (fsRemove fs src) dst c
    | none => fs
  | .syncFile _ => fs
  | .closeFile _ => fs
  | .removeFile f => fsRemove fs f

/-- Run a list of operations. -/
def runFsOps (fs : FsState) (ops : List FsOp) : FsState :=
  ops.foldl runFsOp fs

/-! ## Decimal text (fmt "%d" / "%v" printing and Sscanf scanning)

`storeApplyIndex` writes `fmt.Sprintf("%d", applyIndex)`,
`LoadApplyIndex` reads it back with `fmt.Sscanf(.., "%d", ..)`, and
`ExtentKey.Marshal`/`UnMarshal` print and scan the five fields in
decimal. Printing is modelled by `decRepr`, scanning by a greedy digit
scan (`scanNat`). -/

/-- The character of a decimal digit. -/
def digitChar (d : Nat) : Char := Char.ofNat (48 + d)

/-- Fuel-driven digit printer: peel decimal digits of `n` onto the
front of `acc`, least significant first, so the result lists the most
significant digit first. The fuel only forces termination; any fuel
covering the digit count gives the same result. -/
def decReprCore : Nat → Nat → List Char → List Char
  | 0, _, acc => acc
  | fuel + 1, n, acc =>
    if n < 10 then digitChar n :: acc
    else decReprCore fuel (n / 10) (digitChar (n % 10) :: acc)

/-- Decimal representation of a natural number, most significant digit
first (the output of `fmt` for an unsigned integer). -/
def decRepr (n : Nat) : List Char := decReprCore (n + 1) n []

/-- Reference decimal printer by well-founded recursion on the value;
used only to reason about `decRepr`. -/
def decReprWF (n : Nat) : List Char :=
  if n < 10 then [digitChar n]
  else decReprWF (n / 10) ++ [digitChar (n % 10)]
termination_by n
decreasing_by exact Nat.div_lt_self (by omega) (by omega)

/-- Greedy digit consumption with an accumulator: consume digits,
stop at the first non-digit (or the end), returning the value read and
the unconsumed remainder. -/
def parseNatAux : Nat → List Char → Nat × List Char
  | acc, [] => (acc, [])
  | acc, c :: cs =>
    if c.isDigit then parseNatAux (10 * acc + (c.toNat - 48)) cs
    else (acc, c :: cs)

/-- Scan an unsigned decimal integer (`Sscanf` with `%d`/`%v` on an
unsigned target): fails unless the input starts with a digit. -/
def scanNat : List Char → Option (Nat × List Char)
  | [] => none
  | c :: cs =>
    if c.isDigit then some (parseNatAux (c.toNat - 48) cs) else none

/-- Consume one expected literal character (`Sscanf` format
literal). -/
def expectChar (c : Char) : List Char → Option (List Char)
  | [] => none
  | x :: xs => if x = c then some xs else none

/-- The trace of filesystem operations of a successful run of
`storeApplyIndex(applyIndex)`, in execution order: open the temporary
file with `O_TRUNC|O_CREATE`, write the decimal text of the index,
rename the temporary file over the canonical file — and only then, at
function exit, the deferred `fp.Sync()`, `fp.Close()` and
`os.Remove(filename)` run (the `defer` registered after the open fires
after the function body, hence after the rename). -/
def storeApplyIndexTrace (applyIndex : Nat) : List FsOp :=
  [ .openTrunc TempApplyIndexFile,
    .writeAll TempApplyIndexFile (decRepr applyIndex),
    .rename TempApplyIndexFile ApplyIndexFile,
    .syncFile TempApplyIndexFile,
    .closeFile TempApplyIndexFile,
    .removeFile TempApplyIndexFile ]

/-! ## Applied-index reload (LoadApplyIndex) -/

/-- Errors of `LoadApplyIndex`: the file read failed, the file is
empty, or `Sscanf` could not parse a number. -/
inductive LoadErr where
  | readFail
  | emptyFile
  | scanFail
deriving DecidableEq

/-- Model of `LoadApplyIndex`, over the content of the canonical applied-index
file (`none` = the file is missing, i.e. `os.Stat` fails). A missing
file is not an error and leaves `applyId` unchanged; an empty file
returns the `ApplyIndex is empty` error; otherwise `Sscanf "%d"`
parses the content into `applyId`. Returns the error and the resulting
`applyId`. -/
def LoadApplyIndex (file : Option (List Char)) (applyId : Nat) :
    Option LoadErr × Nat :=
  match file with
  | none => (none, applyId)
  | some data =>
    if data.length = 0 then (some .emptyFile, applyId)
    else
      match scanNat data with
      | some (v, _) => (none, v)
      | none => (some .scanFail, applyId)

/-! ## Apply-error repair (ApplyErrRepair) -/

/-- Task type tag of a `MemberFileMetas` repair task set. `noType` is
the zero value set by `NewMemberFileMetas`; `fixRaftFollower` is the
`FixRaftFollower` tag. -/
inductive TaskType where
  | noType
  | fixRaftFollower
deriving DecidableEq

/-- A per-extent watermark snapshot (`storage.FileInfo`): source
replica address, extent/file id, size, inode. -/
structure FileInfo where
  source : String
  fileId : Nat
  size : Nat
  inode : Nat
deriving DecidableEq

/-- Actions performed by the repair path, in order: stop local
consensus, notify the followers with a task set
(`NotifyRaftFollowerRepair`), delete the local dirty extent
(`extentStore.DeleteDirtyExtent`), merge-repair from a source
(`MergeRepair`, reached through `ExtentRepair`'s add-task list). -/
inductive RepairAction where
  | stopRaft
  | notifyFollowers (taskType : TaskType) (addTasks : List FileInfo)
  | deleteDirtyExtent (extentId : Nat)
  | mergeRepair (addTasks : List FileInfo)
deriving DecidableEq

/-- Model of `ApplyErrRepair(extentId)`: stop raft; fetch the local stable
watermark of the extent (`none` = `GetOneWatermark` failed, which
aborts the repair). If this node is the leader, build a
`FixRaftFollower` task whose add-task names the leader address as
source and notify the followers. If it is a follower and a leader
address is known, delete the local dirty extent and then merge-repair
it from the leader (`ExtentRepair` turns the watermark, with its
source set to the leader address, into the add-task list of a
`MergeRepair`). Otherwise do nothing further. -/
def ApplyErrRepair (isLeader : Bool) (leaderAddr : String)
    (extentId : Nat) (watermark : Option FileInfo) : List RepairAction :=
  RepairAction.stopRaft ::
    match watermark with
    | none => []
    | some info =>
      if isLeader then
        [.notifyFollowers .fixRaftFollower [{ info with source := leaderAddr }]]
      else if leaderAddr ≠ "" then
        [.deleteDirtyExtent extentId,
         .mergeRepair [{ info with source := leaderAddr }]]
      else []

/-! ## Schedule timers (StartSchedule)

`StartSchedule` creates `truncRaftlogTimer := time.NewTimer(30 * Minute)`
and `storeAppliedTimer := time.NewTimer(5 * Minute)` once, and never
calls `Reset` on either; the only other operation is `Stop` on
shutdown. A Go `time.Timer` is single-shot: it delivers exactly one
event on its channel, `d` after creation, and delivers nothing further
unless `Reset` is called. -/

/-- The firing times (relative to creation) of a Go `time.NewTimer d`
that is never `Reset`: exactly one firing, at `d`. -/
def newTimerFirings (d : Nat) : List Nat := [d]

/-- Duration, in minutes, of the truncation timer. -/
def truncTimerMinutes : Nat := 30

/-- Duration, in minutes, of the applied-index report timer. -/
def storeTimerMinutes : Nat := 5

/-- Firing times (in minutes since `StartSchedule`) of the truncation
timer, as the code constructs it. -/
def truncTimerFirings : List Nat := newTimerFirings truncTimerMinutes

/-- Firing times (in minutes since `StartSchedule`) of the
applied-index report timer, as the code constructs it. -/
def storeTimerFirings : List Nat := newTimerFirings storeTimerMinutes

/-! ## ExtentKey (proto) and its two serialization forms

Fields are `uint64`/`uint32` in Go, modelled as `Nat` with explicit
`2^64`/`2^32` bounds where the binary form requires them. The binary
form is the concatenation of the big-endian encodings of the five
fields (8+4+8+4+4 = 28 bytes); the text form is the five fields in
decimal joined by underscores. -/

/-- The structure `proto.ExtentKey`. -/
structure ExtentKey where
  fileOffset : Nat
  partitionId : Nat
  extentId : Nat
  size : Nat
  crc : Nat
deriving DecidableEq

/-- Big-endian byte string (each byte a `Nat < 256`) of width `w` for
the value `n mod 256^w`. -/
def beBytes : Nat → Nat → List Nat
  | 0, _ => []
  | w + 1, n => beBytes w (n / 256) ++ [n % 256]

/-- Big-endian decoding of a byte string. -/
def beDecode (l : List Nat) : Nat :=
  l.foldl (fun a b => 256 * a + b) 0

/-- Model of `binary.Read` of one big-endian field of width `w` from the front
of a buffer: fails when the buffer is too short. -/
def readBE (w : Nat) (buf : List Nat) : Option (Nat × List Nat) :=
  if w ≤ buf.length then some (beDecode (buf.take w), buf.drop w)
  else none

/-- Model of `ExtentKey.MarshalBinary`: big-endian `FileOffset` (8 bytes),
`PartitionId` (4), `ExtentId` (8), `Size` (4), `Crc` (4). Writing to a
`bytes.Buffer` cannot fail, so the result is the byte string itself. -/
def MarshalBinary (k : ExtentKey) : List Nat :=
  beBytes 8 k.fileOffset ++ beBytes 4 k.partitionId ++
    beBytes 8 k.extentId ++ beBytes 4 k.size ++ beBytes 4 k.crc

/-- Model of `ExtentKey.UnmarshalBinary`: read the five fields back in order. -/
def UnmarshalBinary (buf : List Nat) : Option ExtentKey := do
  let (off, b1) ← readBE 8 buf
  let (pid, b2) ← readBE 4 b1
  let (eid, b3) ← readBE 8 b2
  let (sz, b4) ← readBE 4 b3
  let (crc, _) ← readBE 4 b4
  some ⟨off, pid, eid, sz, crc⟩

/-- Model of `ExtentKey.Marshal`: `fmt.Sprintf("%v_%v_%v_%v_%v", ...)` over the
five fields. -/
def Marshal (k : ExtentKey) : List Char :=
  decRepr k.fileOffset ++ '_' :: decRepr k.partitionId ++
    '_' :: decRepr k.extentId ++ '_' :: decRepr k.size ++
    '_' :: decRepr k.crc

/-- Model of `ExtentKey.UnMarshal`: `fmt.Sscanf(m, "%v_%v_%v_%v_%v", ...)` into
the five unsigned fields. -/
def UnMarshal (s : List Char) : Option ExtentKey := do
  let (off, r1) ← scanNat s
  let r1 ← expectChar '_' r1
  let (pid, r2) ← scanNat r1
  let r2 ← expectChar '_' r2
  let (eid, r3) ← scanNat r2
  let r3 ← expectChar '_' r3
  let (sz, r4) ← scanNat r3
  let r4 ← expectChar '_' r4
  let (crc, _) ← scanNat r4
  some ⟨off, pid, eid, sz, crc⟩

/-! ## Helper lemmas: decimal printing and scanning -/

/-- The character of a digit below 10 is a digit character. -/
theorem digitChar_isDigit {d : Nat} (h : d < 10) :
    (digitChar d).isDigit = true := by
  interval_cases d <;> decide

/-- Scanning recovers the value of a digit character. -/
theorem digitChar_val {d : Nat} (h : d < 10) :
    (digitChar d).toNat - 48 = d := by
  interval_cases d <;> decide

/-- With enough fuel, the fuel-driven printer agrees with the
reference printer. -/
theorem decReprCore_eq (fuel : Nat) : ∀ n acc, n < 10 ^ (fuel + 1) →
    decReprCore (fuel + 1) n acc = decReprWF n ++ acc := by
  induction fuel with
  | zero =>
    intro n acc h
    have hn : n < 10 := by simpa using h
    rw [decReprCore, if_pos hn, decReprWF, if_pos hn]
    rfl
  | succ f ih =>
    intro n acc h
    by_cases hn : n < 10
    · rw [decReprCore, if_pos hn, decReprWF, if_pos hn]
      rfl
    · have hdiv : n / 10 < 10 ^ (f + 1) := by
        rw [Nat.div_lt_iff_lt_mul (by omega : 0 < 10)]
        have hp : (10 : Nat) ^ (f + 1 + 1) = 10 ^ (f + 1) * 10 := pow_succ 10 (f + 1)
        omega
      rw [decReprWF, if_neg hn, decReprCore, if_neg hn, ih (n / 10) _ hdiv]
      simp

/-- The printer `decRepr` agrees with the reference printer. -/
theorem decRepr_eq_decReprWF (n : Nat) : decRepr n = decReprWF n := by
  have h : n < 10 ^ (n + 1) :=
    lt_of_lt_of_le (Nat.lt_pow_self (by omega) n)
      (Nat.pow_le_pow_right (by omega) (by omega))
  simpa using decReprCore_eq n n [] h

/-- Scanning the printed digits of `n` followed by `rest` turns an
accumulator `acc` into `acc * 10 ^ digits + n` and continues at
`rest`. -/
theorem parseNatAux_decReprWF (n : Nat) : ∀ acc rest,
    parseNatAux acc (decReprWF n ++ rest) =
      parseNatAux (acc * 10 ^ (decReprWF n).length + n) rest := by
  induction n using Nat.strong_induction_on with
  | _ n ih =>
    intro acc rest
    by_cases hn : n < 10
    · rw [decReprWF, if_pos hn]
      simp only [List.singleton_append, List.length_singleton, pow_one]
      rw [parseNatAux, if_pos (digitChar_isDigit hn), digitChar_val hn]
      ring_nf
    · rw [decReprWF, if_neg hn]
      have hmod : n % 10 < 10 := Nat.mod_lt _ (by omega)
      have hstep : ∀ a : Nat, parseNatAux a (digitChar (n % 10) :: rest) =
          parseNatAux (10 * a + n % 10) rest := by
        intro a
        rw [parseNatAux, if_pos (digitChar_isDigit hmod), digitChar_val hmod]
      rw [List.append_assoc, List.singleton_append,
        ih (n / 10) (Nat.div_lt_self (by omega) (by omega)) acc
          (digitChar (n % 10) :: rest),
        hstep]
      have hdm : 10 * (n / 10) + n % 10 = n := Nat.div_add_mod n 10
      have hlen : (decReprWF (n / 10) ++ [digitChar (n % 10)]).length =
          (decReprWF (n / 10)).length + 1 := by simp
      rw [hlen]
      congr 1
      calc 10 * (acc * 10 ^ (decReprWF (n / 10)).length + n / 10) + n % 10
          = acc * (10 ^ (decReprWF (n / 10)).length * 10) +
              (10 * (n / 10) + n % 10) := by ring
        _ = acc * 10 ^ ((decReprWF (n / 10)).length + 1) + n := by
              rw [hdm, pow_succ]

/-- The reference printout starts with a digit character. -/
theorem decReprWF_head (n : Nat) :
    ∃ d t, d < 10 ∧ decReprWF n = digitChar d :: t := by
  induction n using Nat.strong_induction_on with
  | _ n ih =>
    by_cases hn : n < 10
    · exact ⟨n, [], hn, by rw [decReprWF, if_pos hn]⟩
    · obtain ⟨d, t, hd, ht⟩ := ih (n / 10) (Nat.div_lt_self (by omega) (by omega))
      exact ⟨d, t ++ [digitChar (n % 10)], hd, by
        rw [decReprWF, if_neg hn, ht]; rfl⟩

/-- Greedy digit consumption stops at once on a non-digit head. -/
theorem parseNatAux_stop (acc : Nat) (rest : List Char)
    (h : ∀ c, rest.head? = some c → c.isDigit = false) :
    parseNatAux acc rest = (acc, rest) := by
  cases rest with
  | nil => rfl
  | cons c cs => rw [parseNatAux, if_neg (by simp [h c rfl])]

/-- Scanning the decimal printout of `n` followed by a non-digit (or
nothing) yields `n` and leaves the remainder untouched. -/
theorem scanNat_decRepr (n : Nat) (rest : List Char)
    (h : ∀ c, rest.head? = some c → c.isDigit = false) :
    scanNat (decRepr n ++ rest) = some (n, rest) := by
  rw [decRepr_eq_decReprWF]
  obtain ⟨d, t, hd, ht⟩ := decReprWF_head n
  have h1 : parseNatAux 0 (decReprWF n ++ rest) = (n, rest) := by
    rw [parseNatAux_decReprWF]
    simpa using parseNatAux_stop n rest h
  rw [ht] at h1 ⊢
  rw [List.cons_append, scanNat, if_pos (digitChar_isDigit hd), digitChar_val hd]
  rw [List.cons_append, parseNatAux, if_pos (digitChar_isDigit hd),
    digitChar_val hd] at h1
  simpa using h1

/-- Scanning a printout followed by an underscore. -/
theorem scanNat_decRepr_underscore (n : Nat) (rest : List Char) :
    scanNat (decRepr n ++ '_' :: rest) = some (n, '_' :: rest) :=
  scanNat_decRepr n ('_' :: rest) (by intro c hc; simp at hc; subst hc; decide)

/-- Scanning a printout that ends the input. -/
theorem scanNat_decRepr_nil (n : Nat) : scanNat (decRepr n) = some (n, []) := by
  rw [← List.append_nil (decRepr n)]
  exact scanNat_decRepr n [] (by intro c hc; simp at hc)

/-! ## Helper lemmas: big-endian bytes -/

/-- A `w`-wide encoding has `w` bytes. -/
theorem beBytes_length (w : Nat) : ∀ n, (beBytes w n).length = w := by
  induction w with
  | zero => intro n; rfl
  | succ v ih => intro n; rw [beBytes]; simp [ih]

/-- Folding the decoder over a `w`-wide encoding. -/
theorem foldl_beBytes (w : Nat) : ∀ n acc,
    (beBytes w n).foldl (fun a b => 256 * a + b) acc =
      acc * 256 ^ w + n % 256 ^ w := by
  induction w with
  | zero => intro n acc; simp [beBytes, Nat.mod_one]
  | succ v ih =>
    intro n acc
    rw [beBytes, List.foldl_append, ih]
    simp only [List.foldl_cons, List.foldl_nil]
    have hm : n % (256 * 256 ^ v) = n % 256 + 256 * (n / 256 % 256 ^ v) :=
      Nat.mod_mul
    have hp : (256 : Nat) ^ (v + 1) = 256 * 256 ^ v := by
      rw [pow_succ]; ring
    rw [hp, hm]; ring

/-- Decoding inverts encoding for in-range values. -/
theorem beDecode_beBytes (w n : Nat) (h : n < 256 ^ w) :
    beDecode (beBytes w n) = n := by
  rw [beDecode, foldl_beBytes]
  simp [Nat.mod_eq_of_lt h]

/-- Reading a `w`-wide field off the front of `beBytes w n ++ rest`
yields `n` and the remainder. -/
theorem readBE_beBytes (w n : Nat) (rest : List Nat) (h : n < 256 ^ w) :
    readBE w (beBytes w n ++ rest) = some (n, rest) := by
  rw [readBE, if_pos (by simp [beBytes_length]),
    List.take_left' (beBytes_length w n), List.drop_left' (beBytes_length w n),
    beDecode_beBytes w n h]

/-- Reading a `w`-wide field that ends the buffer. -/
theorem readBE_beBytes_nil (w n : Nat) (h : n < 256 ^ w) :
    readBE w (beBytes w n) = some (n, []) := by
  rw [← List.append_nil (beBytes w n)]
  exact readBE_beBytes w n [] h

/-! ## Helper lemmas: the applied-index poll and the retry loop -/

/-- Unfolding `reportedIds` on a successful head reply. -/
theorem reportedIds_cons_ok (v : Nat) (rs : List HostReply) :
    reportedIds (.ok v :: rs) = v :: reportedIds rs := rfl

/-- A successful poll result is bounded by the starting accumulator and
by every nonzero reported value. -/
theorem pollLoop_le (rs : List HostReply) : ∀ acc m, pollLoop rs acc = some m →
    m ≤ acc ∧ ∀ v ∈ reportedIds rs, v ≠ 0 → m ≤ v := by
  induction rs with
  | nil =>
    intro acc m h
    rw [pollLoop] at h
    cases h
    exact ⟨le_refl _, by intro v hv _; simp [reportedIds] at hv⟩
  | cons r rs ih =>
    intro acc m h
    cases r with
    | connFail => exact absurd h (by rw [pollLoop]; simp)
    | writeFail => exact absurd h (by rw [pollLoop]; simp)
    | readFail => exact absurd h (by rw [pollLoop]; simp)
    | ok v =>
      rw [pollLoop] at h
      by_cases hc : v < acc ∧ v ≠ 0
      · rw [if_pos hc] at h
        obtain ⟨h1, h2⟩ := ih _ m h
        refine ⟨le_trans h1 (le_of_lt hc.1), ?_⟩
        intro u hu hu0
        rw [reportedIds_cons_ok] at hu
        rcases List.mem_cons.mp hu with h' | h'
        · subst h'; exact h1
        · exact h2 u h' hu0
      · rw [if_neg hc] at h
        obtain ⟨h1, h2⟩ := ih _ m h
        refine ⟨h1, ?_⟩
        intro u hu hu0
        rw [reportedIds_cons_ok] at hu
        rcases List.mem_cons.mp hu with h' | h'
        · subst h'
          have hv : ¬ u < acc := fun hlt => hc ⟨hlt, hu0⟩
          omega
        · exact h2 u h' hu0

/-- The poll never touches `applyId` or `lastTruncateId`. -/
theorem getMinAppliedId_preserves (i : Bool) (st : PartState)
    (rs : List HostReply) :
    (getMinAppliedId i st rs).applyId = st.applyId ∧
      (getMinAppliedId i st rs).lastTruncateId = st.lastTruncateId := by
  rw [getMinAppliedId]
  split
  · exact ⟨rfl, rfl⟩
  · split <;> exact ⟨rfl, rfl⟩

/-- After the poll, the stored minimum is the old one (non-coordinator
or failed poll) or the deferred zero. -/
theorem getMinAppliedId_min (i : Bool) (st : PartState)
    (rs : List HostReply) :
    (getMinAppliedId i st rs).minAppliedId = st.minAppliedId ∨
      (getMinAppliedId i st rs).minAppliedId = 0 := by
  rw [getMinAppliedId]
  split
  · exact Or.inl rfl
  · split
    · exact Or.inr rfl
    · exact Or.inl rfl

/-- The truncation tick changes only `lastTruncateId` beyond what the
poll changed. -/
theorem truncTick_fst (i : Bool) (st : PartState) (rs : List HostReply) :
    (truncTick i st rs).1.minAppliedId =
      (getMinAppliedId i st rs).minAppliedId ∧
    (truncTick i st rs).1.applyId = (getMinAppliedId i st rs).applyId := by
  rw [truncTick]
  split <;> exact ⟨rfl, rfl⟩

/-- If one attempt fails with an unchanged state and a one-element
trace, every further attempt repeats it and the loop exhausts its
fuel. -/
theorem sendLoop_const_fail (get : String → Bool)
    (deliver : String → Option SErr) (sc : SC) (e : SErr)
    (h : sendToPartition get deliver sc = (some e, sc, [sc.currAddr])) :
    ∀ fuel, SendLoop get deliver fuel sc =
      (some .retryExhausted, sc, List.replicate fuel sc.currAddr) := by
  intro fuel
  induction fuel with
  | zero => rfl
  | succ f ih =>
    rw [SendLoop, h]
    simp [ih, List.replicate_succ]

/-! ## Claim theorems -/

/-- C1 (counterexample): the poll skips a replica that reports applied
index 0, so the computed cluster minimum (here 5, from the local
`applyId`) can exceed the applied index reported by a polled replica
(here 0), contradicting the claim that the computed minimum never
exceeds the applied index reported by any polled replica. -/
theorem c1_poll_min_zero_report_cx :
    pollLoop [HostReply.ok 0] 5 = some 5 ∧
      (0 : Nat) ∈ reportedIds [HostReply.ok 0] ∧ ¬ (5 : Nat) ≤ 0 := by decide

/-- C1 (amended): in every truncation cycle, the index passed to the
consensus engine equals (hence never exceeds) the partition's current
`minAppliedId`; a successfully computed poll minimum never exceeds the
local `applyId`, and never exceeds the applied index reported by any
polled replica *that reported a nonzero value* (zero reports are
ignored by the poll); and the invariant `minAppliedId ≤ applyId` is
preserved by the truncation cycle. -/
theorem c1_truncation_safety_amended (isCoordinator : Bool) (st : PartState)
    (replies : List HostReply) (m idx : Nat) :
    ((truncTick isCoordinator st replies).2 = some idx →
      idx = (getMinAppliedId isCoordinator st replies).minAppliedId) ∧
    (pollLoop replies st.applyId = some m → m ≤ st.applyId) ∧
    (pollLoop replies st.applyId = some m →
      ∀ v ∈ reportedIds replies, v ≠ 0 → m ≤ v) ∧
    (st.minAppliedId ≤ st.applyId →
      (truncTick isCoordinator st replies).1.minAppliedId ≤
        (truncTick isCoordinator st replies).1.applyId) := by
  refine ⟨?_, fun h => (pollLoop_le replies st.applyId m h).1,
    fun h => (pollLoop_le replies st.applyId m h).2, ?_⟩
  · intro h
    rw [truncTick] at h
    split at h
    · exact (Option.some_inj.mp h).symm
    · exact absurd h (by simp)
  · intro hle
    obtain ⟨hmin, happ⟩ := truncTick_fst isCoordinator st replies
    obtain ⟨happ', _⟩ := getMinAppliedId_preserves isCoordinator st replies
    rcases getMinAppliedId_min isCoordinator st replies with h0 | h0 <;>
      omega

/-- C1 (witness): the amended theorem applied to a concrete cycle that
truncates at index 4 with `applyId = 5` and one replica reporting 3. -/
theorem c1_truncation_safety_amended_witness :
    (4 : Nat) = (getMinAppliedId false ⟨5, 4, 2⟩ [HostReply.ok 3]).minAppliedId ∧
    (3 : Nat) ≤ 5 ∧ (3 : Nat) ≤ 3 ∧
    (truncTick false ⟨5, 4, 2⟩ [HostReply.ok 3]).1.minAppliedId ≤
      (truncTick false ⟨5, 4, 2⟩ [HostReply.ok 3]).1.applyId :=
  have h := c1_truncation_safety_amended false ⟨5, 4, 2⟩ [HostReply.ok 3] 3 4
  ⟨h.1 (by decide), h.2.1 (by decide),
    h.2.2.1 (by decide) 3 (by decide) (by decide), h.2.2.2 (by decide)⟩

/-- C2: with consensus attached and the local node present in the peer
set, a remove-peer entry targeting the local node returns `updated =
false` and no error immediately, spawning the teardown; and in any
observation window of the teardown goroutine, the partition directory
is removed only when some observed applied index has reached the
removal entry's index, with consensus-state deletion and partition stop
strictly before the directory removal. -/
theorem c2_self_removal (partitionId nodeId : Nat) (peers : List Nat)
    (index : Nat) (hmem : nodeId ∈ peers) :
    confRemoveNode partitionId nodeId true peers nodeId index =
      (false, none, peers, .spawnSelfRemove index) ∧
    ∀ obs : List Nat, TDAction.removeDir ∈ selfRemoveRun index true obs →
      selfRemoveRun index true obs =
        [TDAction.deleteRaft, TDAction.stopPartition, TDAction.removeDir] ∧
      ∃ a ∈ obs, index ≤ a := by
  constructor
  · simp [confRemoveNode, hmem]
  · intro obs
    induction obs with
    | nil => intro h; exact absurd h (by rw [selfRemoveRun]; simp)
    | cons a rest ih =>
      intro h
      rw [selfRemoveRun] at h ⊢
      by_cases hc : a < index
      · rw [if_pos hc] at h ⊢
        obtain ⟨h1, x, hx, hxi⟩ := ih h
        exact ⟨h1, x, List.mem_cons_of_mem a hx, hxi⟩
      · rw [if_neg hc] at h ⊢
        exact ⟨rfl, a, List.mem_cons_self a rest, by omega⟩

/-- C2 (witness): node 2 removes itself from peer set `[1, 2]` at entry
index 7; the teardown acts once an observed applied index (9) reaches
7. -/
theorem c2_self_removal_witness :
    confRemoveNode 1 2 true [1, 2] 2 7 =
      (false, none, [1, 2], .spawnSelfRemove 7) ∧
    selfRemoveRun 7 true [3, 9] =
      [TDAction.deleteRaft, TDAction.stopPartition, TDAction.removeDir] ∧
    ∃ a ∈ [3, 9], 7 ≤ a :=
  have h := c2_self_removal 1 2 [1, 2] 7 (by decide)
  ⟨h.1, (h.2 [3, 9] (by decide)).1, (h.2 [3, 9] (by decide)).2⟩

/-- C3: in the trace of `storeApplyIndex 42`, the rename over the
canonical file happens strictly before the fsync of the temporary file
(the sync sits in a `defer` that runs at function exit), contradicting
the claimed write-fsync-rename order; under immediate-visibility crash
semantics the canonical content is still the old value (`"7"`) at every
prefix before the rename and the new value (`"42"`) from the rename
on. -/
theorem c3_store_apply_index_rename_before_sync :
    storeApplyIndexTrace 42 =
      [FsOp.openTrunc TempApplyIndexFile,
       FsOp.writeAll TempApplyIndexFile ['4', '2'],
       FsOp.rename TempApplyIndexFile ApplyIndexFile,
       FsOp.syncFile TempApplyIndexFile,
       FsOp.closeFile TempApplyIndexFile,
       FsOp.removeFile TempApplyIndexFile] ∧
    (storeApplyIndexTrace 42).indexOf
        (FsOp.rename TempApplyIndexFile ApplyIndexFile) <
      (storeApplyIndexTrace 42).indexOf (FsOp.syncFile TempApplyIndexFile) ∧
    fsGet (runFsOps [(ApplyIndexFile, ['7'])] ((storeApplyIndexTrace 42).take 0))
        ApplyIndexFile = some ['7'] ∧
    fsGet (runFsOps [(ApplyIndexFile, ['7'])] ((storeApplyIndexTrace 42).take 1))
        ApplyIndexFile = some ['7'] ∧
    fsGet (runFsOps [(ApplyIndexFile, ['7'])] ((storeApplyIndexTrace 42).take 2))
        ApplyIndexFile = some ['7'] ∧
    fsGet (runFsOps [(ApplyIndexFile, ['7'])] ((storeApplyIndexTrace 42).take 3))
        ApplyIndexFile = some ['4', '2'] ∧
    fsGet (runFsOps [(ApplyIndexFile, ['7'])] ((storeApplyIndexTrace 42).take 4))
        ApplyIndexFile = some ['4', '2'] ∧
    fsGet (runFsOps [(ApplyIndexFile, ['7'])] ((storeApplyIndexTrace 42).take 5))
        ApplyIndexFile = some ['4', '2'] ∧
    fsGet (runFsOps [(ApplyIndexFile, ['7'])] ((storeApplyIndexTrace 42).take 6))
        ApplyIndexFile = some ['4', '2'] := by decide

/-- C4 (counterexample): an existing but empty applied-index file does
not yield `applyId 0` with no error — `LoadApplyIndex` returns the
`ApplyIndex is empty` error (the claim's no-error assertion fails). -/
theorem c4_empty_file_cx :
    LoadApplyIndex (some []) 0 = (some LoadErr.emptyFile, 0) ∧
      (LoadApplyIndex (some []) 0).1 ≠ none := by decide

/-- C4 (amended): reloading a file containing `"42"` yields `applyId =
42` with no error; a missing file yields `applyId = 0` with no error;
an existing empty file leaves `applyId = 0` but returns an error. -/
theorem c4_load_apply_index_amended :
    LoadApplyIndex (some ['4', '2']) 0 = (none, 42) ∧
      LoadApplyIndex none 0 = (none, 0) ∧
      LoadApplyIndex (some []) 0 = (some LoadErr.emptyFile, 0) := by decide

/-- C5: with a successful watermark fetch, a leader builds a
`FixRaftFollower` task whose add-task names the leader address as
source and notifies the followers; a follower with a known leader
address deletes the local dirty extent before merge-repairing from the
leader; a follower with no known leader performs no action beyond
stopping raft (no delete, no notify). -/
theorem c5_apply_err_repair_roles (leaderAddr : String) (extentId : Nat)
    (info : FileInfo) (watermark : Option FileInfo)
    (hw : watermark = some info) :
    ApplyErrRepair true leaderAddr extentId watermark =
      [.stopRaft,
       .notifyFollowers .fixRaftFollower [{ info with source := leaderAddr }]] ∧
    (leaderAddr ≠ "" →
      ApplyErrRepair false leaderAddr extentId watermark =
        [.stopRaft, .deleteDirtyExtent extentId,
         .mergeRepair [{ info with source := leaderAddr }]]) ∧
    ApplyErrRepair false "" extentId watermark = [RepairAction.stopRaft] := by
  subst hw
  refine ⟨rfl, fun h => ?_, by simp [ApplyErrRepair]⟩
  simp [ApplyErrRepair, h]

/-- C5 (witness): the repair roles at a concrete extent 9 with leader
address `"L"`. -/
theorem c5_apply_err_repair_roles_witness :
    ApplyErrRepair true "L" 9 (some ⟨"x", 9, 100, 33⟩) =
      [.stopRaft, .notifyFollowers .fixRaftFollower [⟨"L", 9, 100, 33⟩]] ∧
    ApplyErrRepair false "L" 9 (some ⟨"x", 9, 100, 33⟩) =
      [.stopRaft, .deleteDirtyExtent 9, .mergeRepair [⟨"L", 9, 100, 33⟩]] ∧
    ApplyErrRepair false "" 9 (some ⟨"x", 9, 100, 33⟩) =
      [RepairAction.stopRaft] :=
  have h := c5_apply_err_repair_roles "L" 9 ⟨"x", 9, 100, 33⟩
    (some ⟨"x", 9, 100, 33⟩) rfl
  ⟨h.1, h.2.1 (by decide), h.2.2⟩

/-- C6: when delivery to the cached current address fails with an error
other than the `NotLeaderError` sentinel, the attempt returns that
error at once with the cached address as the only delivery attempted —
no other host in the host list is tried — and the surrounding `Send`
fails, every delivery it ever attempts being to the cached address. -/
theorem c6_send_fail_fast (get : String → Bool)
    (deliver : String → Option SErr) (sc : SC) (e : SErr)
    (hget : get sc.currAddr = true) (hdel : deliver sc.currAddr = some e)
    (hne : e ≠ .notLeader) :
    sendToPartition get deliver sc = (some e, sc, [sc.currAddr]) ∧
      (Send get deliver sc).1 = some .retryExhausted ∧
      ∀ a ∈ (Send get deliver sc).2.2, a = sc.currAddr := by
  have h1 : sendToPartition get deliver sc = (some e, sc, [sc.currAddr]) := by
    simp [sendToPartition, hget, hdel, hne]
  refine ⟨h1, ?_, ?_⟩
  · rw [Send, sendLoop_const_fail get deliver sc e h1]
  · rw [Send, sendLoop_const_fail get deliver sc e h1]
    intro a ha
    exact List.eq_of_mem_replicate ha

/-- C6 (witness): every delivery fails with a non-leader error; the
send fails and only the cached address `"A"` is ever attempted. -/
theorem c6_send_fail_fast_witness :
    sendToPartition (fun _ => true) (fun _ => some (.other 3))
        ⟨1, "A", ["A", "B"]⟩ =
      (some (.other 3), ⟨1, "A", ["A", "B"]⟩, ["A"]) ∧
    (Send (fun _ => true) (fun _ => some (.other 3))
        ⟨1, "A", ["A", "B"]⟩).1 = some .retryExhausted ∧
    ∀ a ∈ (Send (fun _ => true) (fun _ => some (.other 3))
        ⟨1, "A", ["A", "B"]⟩).2.2, a = "A" :=
  c6_send_fail_fast (fun _ => true) (fun _ => some (.other 3))
    ⟨1, "A", ["A", "B"]⟩ (.other 3) (by decide) (by decide) (by decide)

/-- C7: with hosts `[a, b, c]`, cached address `a` answering "not
leader" and `b` succeeding, `Send` succeeds with `b` as the new cached
address (having attempted `a`, `a` again in the walk, then `b`), and a
subsequent send attempts `b` first. -/
theorem c7_leader_caching (p : Nat) (a b c : String)
    (deliver : String → Option SErr) (hda : deliver a = some .notLeader)
    (hdb : deliver b = none) :
    Send (fun _ => true) deliver ⟨p, a, [a, b, c]⟩ =
      (none, ⟨p, b, [a, b, c]⟩, [a, a, b]) ∧
      (sendToPartition (fun _ => true) deliver ⟨p, b, [a, b, c]⟩).2.2 = [b] := by
  have hsp : sendToPartition (fun _ => true) deliver ⟨p, a, [a, b, c]⟩ =
      (none, ⟨p, b, [a, b, c]⟩, [a, a, b]) := by
    simp [sendToPartition, walkHosts, hda, hdb]
  constructor
  · rw [Send, show StreamSendMaxRetry = 99 + 1 from rfl, SendLoop, hsp]
  · simp [sendToPartition, hdb]

/-- C7 (witness): the scenario with hosts `["A", "B", "C"]`, `"A"` not
leader and `"B"` succeeding. -/
theorem c7_leader_caching_witness :
    Send (fun _ => true)
        (fun s => if s = "A" then some .notLeader
          else if s = "B" then none else some (.other 0))
        ⟨1, "A", ["A", "B", "C"]⟩ =
      (none, ⟨1, "B", ["A", "B", "C"]⟩, ["A", "A", "B"]) ∧
    (sendToPartition (fun _ => true)
        (fun s => if s = "A" then some .notLeader
          else if s = "B" then none else some (.other 0))
        ⟨1, "B", ["A", "B", "C"]⟩).2.2 = ["B"] :=
  c7_leader_caching 1 "A" "B" "C" _ (by decide) (by decide)

/-- C8: the two schedule timers are `time.NewTimer` values that are
never `Reset`, so each fires exactly once (30 minutes and 5 minutes
after `StartSchedule`); the claimed recurrence — every firing followed
by a later firing of the same timer — fails for both. -/
theorem c8_schedule_timers_single_shot :
    truncTimerFirings = [30] ∧ storeTimerFirings = [5] ∧
      ¬ (∀ t ∈ truncTimerFirings, ∃ u ∈ truncTimerFirings, t < u) ∧
      ¬ (∀ t ∈ storeTimerFirings, ∃ u ∈ storeTimerFirings, t < u) := by decide

/-- C9: for every `ExtentKey` whose fields are in the `uint64`/`uint32`
ranges, the binary marshal/unmarshal pair and the underscore-delimited
text marshal/unmarshal pair each reproduce all five fields exactly. -/
theorem c9_extent_key_roundtrip (k : ExtentKey)
    (hoff : k.fileOffset < 2 ^ 64) (hpid : k.partitionId < 2 ^ 32)
    (heid : k.extentId < 2 ^ 64) (hsz : k.size < 2 ^ 32)
    (hcrc : k.crc < 2 ^ 32) :
    UnmarshalBinary (MarshalBinary k) = some k ∧
      UnMarshal (Marshal k) = some k := by
  constructor
  · have e64 : (2 : Nat) ^ 64 = 256 ^ 8 := by norm_num
    have e32 : (2 : Nat) ^ 32 = 256 ^ 4 := by norm_num
    rw [e64] at hoff heid
    rw [e32] at hpid hsz hcrc
    simp only [UnmarshalBinary, MarshalBinary, List.append_assoc]
    rw [readBE_beBytes 8 k.fileOffset _ hoff]
    simp only [Option.bind_eq_bind, Option.some_bind]
    rw [readBE_beBytes 4 k.partitionId _ hpid]
    simp only [Option.bind_eq_bind, Option.some_bind]
    rw [readBE_beBytes 8 k.extentId _ heid]
    simp only [Option.bind_eq_bind, Option.some_bind]
    rw [readBE_beBytes 4 k.size _ hsz]
    simp only [Option.bind_eq_bind, Option.some_bind]
    rw [readBE_beBytes_nil 4 k.crc hcrc]
    simp only [Option.bind_eq_bind, Option.some_bind]
  · simp [UnMarshal, Marshal, scanNat_decRepr_underscore, scanNat_decRepr_nil,
      expectChar]

/-- C9 (witness): both round trips at a concrete key. -/
theorem c9_extent_key_roundtrip_witness :
    (1000 : Nat) < 2 ^ 64 ∧ (7 : Nat) < 2 ^ 32 ∧ (42 : Nat) < 2 ^ 64 ∧
    (65536 : Nat) < 2 ^ 32 ∧ (305419896 : Nat) < 2 ^ 32 ∧
    (UnmarshalBinary (MarshalBinary ⟨1000, 7, 42, 65536, 305419896⟩) =
      some ⟨1000, 7, 42, 65536, 305419896⟩ ∧
     UnMarshal (Marshal ⟨1000, 7, 42, 65536, 305419896⟩) =
      some ⟨1000, 7, 42, 65536, 305419896⟩) :=
  ⟨by decide, by decide, by decide, by decide, by decide,
    c9_extent_key_roundtrip ⟨1000, 7, 42, 65536, 305419896⟩ (by decide)
      (by decide) (by decide) (by decide) (by decide)⟩

/-- C10: a fully successful poll does *not* store the newly computed
minimum: with `applyId = 5` and one replica reporting 3 the computed
minimum is 3, yet the stored `minAppliedId` becomes 0 (the deferred
assignment's argument was evaluated, still zero, before the poll ran);
any connection or read failure leaves the stored `minAppliedId`
unchanged. -/
theorem c10_get_min_applied_defer_freeze :
    getMinAppliedId true ⟨5, 4, 0⟩ [HostReply.ok 3] = ⟨5, 0, 0⟩ ∧
      pollLoop [HostReply.ok 3] 5 = some 3 ∧
      getMinAppliedId true ⟨5, 4, 0⟩ [HostReply.ok 3, HostReply.connFail] =
        ⟨5, 4, 0⟩ ∧
      getMinAppliedId true ⟨5, 4, 0⟩ [HostReply.readFail] = ⟨5, 4, 0⟩ := by
  decide
